import Mathlib

/-!
Shallow embedding of `easyga.py` (easyGA-python, Python 2).

Modelling conventions:
* A Python bit is an `Nat` that the program keeps in `{0, 1}`.
* Fitness scores (Python floats) are modelled as `Rat`.
* `random.random()` draws are an explicit stream `Nat → Rat` of values in `[0, 1)`;
  `random.choice([0,1])` draws are a stream `Nat → Fin 2`;
  `random.choice(lst)` index draws are a stream `Nat → Nat` taken mod the list length.
* The shared `fitness_fnc` is a parameter `List Nat → Rat` passed where the code reads
  `self.fitness_fnc` (every individual of a population holds the same reference).
* Object identity (`is`) of individuals in a population is their index in the
  population list: all the list entries are distinct Python objects.
* Unbounded `while` loops are given explicit fuel; `none` means the loop has not
  returned within the fuel (the Python code would still be looping), and the code
  being embedded contains no `raise` on those paths.
* Python 2 `/` on nonnegative integers is `Nat` division (floor).
-/

namespace EasyGA

/-- `Chromasome.__init__` state: `n_bits`, `fitness_val` (None until cached),
`bit_string`, and the write-only `fitness_calculated` flag. -/
structure Chromasome where
  n_bits : Nat
  fitness_val : Option Rat
  bit_string : List Nat
  fitness_calculated : Bool
deriving Repr, DecidableEq

namespace Chromasome

/-- `Chromasome(n_bits, fitness_fnc)`: all-zero bit string of length `n_bits`,
no cached fitness. -/
def init (n_bits : Nat) : Chromasome :=
  { n_bits := n_bits
    fitness_val := none
    bit_string := List.replicate n_bits 0
    fitness_calculated := false }

/-- `randomise`: `self.bit_string = [random.choice([0, 1]) for i in range(self.n_bits)]`. -/
def randomise (c : Chromasome) (draws : Nat → Fin 2) : Chromasome :=
  { c with bit_string := (List.range c.n_bits).map fun i => (draws i).val }

/-- `int(not b)` on a Python int: `1` when `b == 0`, else `0`. -/
def pyNot (b : Nat) : Nat := if b = 0 then 1 else 0

/-- The `for i in range(len(self.bit_string))` loop body of `mutate`, started at
index `i`: flip bit `i` iff `random.random() <= rate`. -/
def mutateBits (rate : Rat) (draws : Nat → Rat) : Nat → List Nat → List Nat
  | _, [] => []
  | i, b :: bs => (if draws i ≤ rate then pyNot b else b) :: mutateBits rate draws (i + 1) bs

/-- `mutate(rate)`: in-place bit flips; the fitness cache is NOT invalidated. -/
def mutate (c : Chromasome) (rate : Rat) (draws : Nat → Rat) : Chromasome :=
  { c with bit_string := mutateBits rate draws 0 c.bit_string }

/-- `fitness()`: returns the cached value if present, otherwise evaluates
`fitness_fnc` on the bit string and caches it. The third component counts how
often the fitness function was invoked by this call. -/
def fitness (c : Chromasome) (fnc : List Nat → Rat) : Rat × Chromasome × Nat :=
  match c.fitness_val with
  | some v => (v, c, 0)
  | none =>
    let v := fnc c.bit_string
    (v, { c with fitness_val := some v }, 1)

/-- Python slice endpoint: `lst[:p]` keeps `pySliceIdx (len lst) p` elements and
`lst[p:]` drops that many. Negative `p` counts from the end, clamped at `0`;
`p` past the end is clamped at `len`. -/
def pySliceIdx (len : Nat) (p : Int) : Nat :=
  if p < 0 then ((len : Int) + p).toNat else min p.toNat len

/-- `crossoverSinglePoint(mate, pivot)`:
`child.bit_string = self.bit_string[:pivot] + mate.bit_string[pivot:]` on a
fresh `Chromasome(self.n_bits, self.fitness_fnc)`. No pivot validation occurs. -/
def crossoverSinglePoint (c mate : Chromasome) (pivot : Int) : Chromasome :=
  { init c.n_bits with
    bit_string :=
      c.bit_string.take (pySliceIdx c.bit_string.length pivot) ++
        mate.bit_string.drop (pySliceIdx mate.bit_string.length pivot) }

/-- `crossoverUniform(mate)`: child starts as `Chromasome(self.n_bits, ...)` and,
for each `i` in `range(len(self.bit_string))`, `child.bit_string[i]` is taken
from `mate` when `random.random() > 0.5` (draw `true`) else from `self`.
(When the population invariant holds, every index is in range for all three
lists, so `List.set`/`getD` coincide with Python indexing.) -/
def crossoverUniform (c mate : Chromasome) (draws : Nat → Bool) : Chromasome :=
  { init c.n_bits with
    bit_string :=
      (List.range c.bit_string.length).foldl
        (fun bs i =>
          bs.set i (if draws i then mate.bit_string.getD i 0 else c.bit_string.getD i 0))
        (List.replicate c.n_bits 0) }

end Chromasome

/-- `GeneticAlgorithm` state: population size, bit-string length, and the
population owned by the engine. -/
structure GeneticAlgorithm where
  population_size : Nat
  bit_string_len : Nat
  population : List Chromasome
deriving Repr, DecidableEq

namespace GeneticAlgorithm

open Chromasome

/-- The fitness value `individual.fitness()` would return: the cache when
present, else `fitness_fnc(bit_string)`. -/
def fitnessOf (fnc : List Nat → Rat) (c : Chromasome) : Rat :=
  match c.fitness_val with
  | some v => v
  | none => fnc c.bit_string

/-- The caching side effect of calling `fitness()` on every individual once, as
the `key=lambda genotype: genotype.fitness()` of `sorted` does. -/
def scorePop (fnc : List Nat → Rat) (pop : List Chromasome) : List Chromasome :=
  pop.map fun c => (c.fitness fnc).2.1

/-- Stable insertion into a list sorted descending by `key`: `x` goes before the
first element whose key is not above `key x` (so among equal keys, earlier
elements stay first, as Python's stable `sorted(..., reverse=True)`). -/
def insertDesc (key : Chromasome → Rat) (x : Chromasome) :
    List Chromasome → List Chromasome
  | [] => [x]
  | y :: ys => if key y > key x then y :: insertDesc key x ys else x :: y :: ys

/-- `sorted(pop, key=..., reverse=True)`: the stable descending sort. -/
def sortDesc (key : Chromasome → Rat) : List Chromasome → List Chromasome
  | [] => []
  | x :: xs => insertDesc key x (sortDesc key xs)

/-- The `for individual in self.population` walk of `getRoulettePairs`: starting
from accumulated fitness `acc` at index `i`, return the index of the first
individual with `cumulative_fitness >= r`, or `none` when the loop falls
through (Python leaves the parent as `None`). -/
def rouletteWalk (fnc : List Nat → Rat) (r : Rat) :
    List Chromasome → Rat → Nat → Option Nat
  | [], _, _ => none
  | c :: cs, acc, i =>
    let acc' := acc + fitnessOf fnc c
    if acc' ≥ r then some i else rouletteWalk fnc r cs acc' (i + 1)

/-- The `while len(parent_pairs) < n_pairs` loop of `getRoulettePairs` over the
(already sorted) population. Each iteration draws `r = random.uniform(0.0,
total_fitness) = stream k * total` twice; the pair of selected indices (an
index into the sorted population, or `none` for Python's `None`) is appended
only when the components are not the same object and the ordered pair is not
already present. `none` result = fuel exhausted while the code still loops. -/
def rouletteLoop (pop : List Chromasome) (fnc : List Nat → Rat) (total : Rat)
    (stream : Nat → Rat) (n_pairs : Nat) :
    Nat → Nat → List (Option Nat × Option Nat) → Option (List (Option Nat × Option Nat))
  | 0, _, pairs => if n_pairs ≤ pairs.length then some pairs else none
  | fuel + 1, k, pairs =>
    if n_pairs ≤ pairs.length then some pairs
    else
      let left := rouletteWalk fnc (stream k * total) pop 0 0
      let right := rouletteWalk fnc (stream (k + 1) * total) pop 0 0
      let pairs' :=
        if left ≠ right ∧ (left, right) ∉ pairs then pairs ++ [(left, right)] else pairs
      rouletteLoop pop fnc total stream n_pairs fuel (k + 2) pairs'

/-- `getRoulettePairs(n_pairs)`: sorts `self.population` descending by fitness
(caching every fitness on the way), sums the fitness over the sorted
population, and rejection-samples pairs. Returns the pairs (as index pairs
into the sorted population) and the updated engine; `none` = out of fuel
(the code has no raise on any path of this method). -/
def getRoulettePairs (ga : GeneticAlgorithm) (fnc : List Nat → Rat) (n_pairs : Nat)
    (stream : Nat → Rat) (fuel : Nat) :
    Option (List (Option Nat × Option Nat) × GeneticAlgorithm) :=
  let pop := sortDesc (fitnessOf fnc) (scorePop fnc ga.population)
  let total := (pop.map (fitnessOf fnc)).sum
  match rouletteLoop pop fnc total stream n_pairs fuel 0 [] with
  | none => none
  | some pairs => some (pairs, { ga with population := pop })

/-- The `while len(parent_pairs) < self.population_size` loop of `getBestPairs`:
each iteration picks `p1`, `p2` by `random.choice(elites)` (an index draw mod
`elites_len`) and appends the index pair when the components differ and the
ordered pair is new. `none` = fuel exhausted, or `random.choice` on an empty
elite list (IndexError). -/
def bestLoop (elites_len pop_size : Nat) (stream : Nat → Nat) :
    Nat → Nat → List (Nat × Nat) → Option (List (Nat × Nat))
  | 0, _, pairs => if pop_size ≤ pairs.length then some pairs else none
  | fuel + 1, k, pairs =>
    if pop_size ≤ pairs.length then some pairs
    else if elites_len = 0 then none
    else
      let i1 := stream k % elites_len
      let i2 := stream (k + 1) % elites_len
      let pairs' := if i1 ≠ i2 ∧ (i1, i2) ∉ pairs then pairs ++ [(i1, i2)] else pairs
      bestLoop elites_len pop_size stream fuel (k + 2) pairs'

/-- `getBestPairs(n_pairs, n_elites)`: sorts `self.population` descending by
fitness (caching), takes `self.population[:n_pairs]` as the elite pool
(`n_elites` is accepted but never read), and samples pairs until
`self.population_size` pairs exist. Pairs are index pairs into the sorted
population. -/
def getBestPairs (ga : GeneticAlgorithm) (fnc : List Nat → Rat)
    (n_pairs n_elites : Nat) (stream : Nat → Nat) (fuel : Nat) :
    Option (List (Nat × Nat) × GeneticAlgorithm) :=
  let pop := sortDesc (fitnessOf fnc) (scorePop fnc ga.population)
  let elites := pop.take n_pairs
  match bestLoop elites.length ga.population_size stream fuel 0 [] with
  | none => none
  | some pairs => some (pairs, { ga with population := pop })

/-- `singlePointCrossover(parent_pairs, pivot=None)`: requires exactly
`self.population_size / 2` (Python 2 floor division) pairs, else `ValueError`
(`none`). Default pivot is `self.bit_string_len / 2`. Produces
`p1.crossoverSinglePoint(p2, pivot)` for every pair, then
`p2.crossoverSinglePoint(p1, pivot)` for every pair. -/
def singlePointCrossover (ga : GeneticAlgorithm)
    (parent_pairs : List (Chromasome × Chromasome)) (pivot : Option Int) :
    Option (List Chromasome) :=
  if parent_pairs.length ≠ ga.population_size / 2 then none
  else
    let piv := pivot.getD ((ga.bit_string_len : Int) / 2)
    some ((parent_pairs.map fun p => p.1.crossoverSinglePoint p.2 piv) ++
      (parent_pairs.map fun p => p.2.crossoverSinglePoint p.1 piv))

end GeneticAlgorithm

namespace Chromasome

/-! ### Helper lemmas -/

theorem mutateBits_length (rate : Rat) (draws : Nat → Rat) :
    ∀ (i : Nat) (bs : List Nat), (mutateBits rate draws i bs).length = bs.length := by
  intro i bs
  induction bs generalizing i with
  | nil => rfl
  | cons b bs ih => simp [mutateBits, ih]

theorem mutateBits_rate_zero (draws : Nat → Rat) (h : ∀ i, 0 < draws i) :
    ∀ (i : Nat) (bs : List Nat), mutateBits 0 draws i bs = bs := by
  intro i bs
  induction bs generalizing i with
  | nil => rfl
  | cons b bs ih =>
    simp only [mutateBits, ih]
    rw [if_neg (by exact not_le.mpr (h i))]

theorem mutateBits_rate_one (draws : Nat → Rat) (h : ∀ i, draws i < 1) :
    ∀ (i : Nat) (bs : List Nat), mutateBits 1 draws i bs = bs.map pyNot := by
  intro i bs
  induction bs generalizing i with
  | nil => rfl
  | cons b bs ih =>
    simp only [mutateBits, ih, List.map]
    rw [if_pos (le_of_lt (h i))]

theorem pySliceIdx_coe (len k : Nat) (hk : k ≤ len) :
    pySliceIdx len (k : Int) = k := by
  simp [pySliceIdx, hk]

theorem foldl_set_length (f : Nat → Nat) :
    ∀ (l : List Nat) (acc : List Nat),
      (l.foldl (fun bs i => bs.set i (f i)) acc).length = acc.length := by
  intro l
  induction l with
  | nil => intro acc; rfl
  | cons x xs ih => intro acc; simp [List.foldl, ih, List.length_set]

/-! ### Claim theorems on `Chromasome` -/

/-- C10: a freshly constructed `Chromasome` with `n_bits > 0` has a genome of
exactly `n_bits` bits, all equal to `0`, and no cached fitness value. -/
theorem init_all_zero (n : Nat) (h : 0 < n) :
    (Chromasome.init n).bit_string = List.replicate n 0 ∧
    (Chromasome.init n).bit_string.length = n ∧
    (Chromasome.init n).fitness_val = none :=
  ⟨rfl, by simp [Chromasome.init], rfl⟩

theorem init_all_zero_witness :
    (Chromasome.init 8).bit_string = List.replicate 8 0 ∧
    (Chromasome.init 8).bit_string.length = 8 ∧
    (Chromasome.init 8).fitness_val = none :=
  init_all_zero 8 (by decide)

/-- C3: for genomes of length `n` and a pivot `0 ≤ k ≤ n`,
`p1.crossoverSinglePoint(p2, k)` returns a child whose genome is the first `k`
bits of `p1` followed by the bits of `p2` from position `k` on, with no cached
fitness. (The embedding is pure: the call only constructs the child, so the
parents' genomes are untouched by construction.) -/
theorem crossoverSinglePoint_spec (p1 p2 : Chromasome) (n k : Nat)
    (h1 : p1.bit_string.length = n) (h2 : p2.bit_string.length = n) (hk : k ≤ n) :
    (p1.crossoverSinglePoint p2 (k : Int)).bit_string =
      p1.bit_string.take k ++ p2.bit_string.drop k ∧
    (p1.crossoverSinglePoint p2 (k : Int)).fitness_val = none := by
  constructor
  · simp [crossoverSinglePoint, h1, h2, pySliceIdx_coe n k hk]
  · rfl

theorem crossoverSinglePoint_spec_witness :
    ((⟨8, none, [1, 1, 1, 1, 0, 0, 0, 0], false⟩ : Chromasome).crossoverSinglePoint
        ⟨8, none, [0, 0, 0, 0, 1, 1, 1, 1], false⟩ (4 : Nat)).bit_string =
      [1, 1, 1, 1, 0, 0, 0, 0].take 4 ++ [0, 0, 0, 0, 1, 1, 1, 1].drop 4 ∧
    ((⟨8, none, [1, 1, 1, 1, 0, 0, 0, 0], false⟩ : Chromasome).crossoverSinglePoint
        ⟨8, none, [0, 0, 0, 0, 1, 1, 1, 1], false⟩ (4 : Nat)).fitness_val = none :=
  crossoverSinglePoint_spec _ _ 8 4 rfl rfl (by decide)

/-- C5 counterexample: `crossoverSinglePoint` performs no pivot validation. At
pivot `3 > n_bits = 2` the call does not fail: it returns an ordinary offspring
(genome `[1, 1]`, the whole genome of `p1`, by Python slice clamping). -/
theorem crossoverSinglePoint_no_error_counterexample :
    ¬ ((3 : Int) ≤ 2) ∧
    (⟨2, none, [1, 1], false⟩ : Chromasome).crossoverSinglePoint
        ⟨2, none, [0, 0], false⟩ 3 =
      ⟨2, none, [1, 1], false⟩ := by
  constructor
  · decide
  · rfl

/-- C5 amended: for every pivot outside `[0, n_bits]`, `crossoverSinglePoint`
raises nothing; the child is built by Python slice semantics, uniformly the
first `(n_bits + pivot).toNat` bits of `p1` followed by `p2` from that position
on: above `n_bits` both slices clamp so the child is a copy of `p1`'s whole
genome, and a negative pivot counts from the end (clamping at `0` below
`-n_bits`). The child has no cached fitness. -/
theorem crossoverSinglePoint_pivot_outside (p1 p2 : Chromasome) (n : Nat) (pivot : Int)
    (h1 : p1.bit_string.length = n) (h2 : p2.bit_string.length = n)
    (hp : pivot < 0 ∨ (n : Int) < pivot) :
    (p1.crossoverSinglePoint p2 pivot).bit_string =
      p1.bit_string.take ((n : Int) + pivot).toNat ++
        p2.bit_string.drop ((n : Int) + pivot).toNat ∧
    (p1.crossoverSinglePoint p2 pivot).fitness_val = none := by
  refine ⟨?_, rfl⟩
  rcases hp with hp | hp
  · simp [crossoverSinglePoint, pySliceIdx, if_pos hp, h1, h2]
  · have hp0 : ¬ pivot < 0 := by omega
    simp only [crossoverSinglePoint, pySliceIdx, if_neg hp0, h1, h2,
      Nat.min_eq_right (show n ≤ pivot.toNat by omega)]
    rw [List.take_of_length_le (le_of_eq h1),
      List.take_of_length_le (by rw [h1]; omega),
      List.drop_eq_nil_of_le (le_of_eq h2),
      List.drop_eq_nil_of_le (by rw [h2]; omega)]

theorem crossoverSinglePoint_pivot_outside_witness :
    (((⟨2, none, [1, 0], false⟩ : Chromasome).crossoverSinglePoint
        ⟨2, none, [0, 1], false⟩ (-1)).bit_string =
      [1, 0].take ((2 : Int) + -1).toNat ++ [0, 1].drop ((2 : Int) + -1).toNat ∧
    ((⟨2, none, [1, 0], false⟩ : Chromasome).crossoverSinglePoint
        ⟨2, none, [0, 1], false⟩ (-1)).fitness_val = none) ∧
    (((⟨2, none, [1, 0], false⟩ : Chromasome).crossoverSinglePoint
        ⟨2, none, [0, 1], false⟩ 5).bit_string =
      [1, 0].take ((2 : Int) + 5).toNat ++ [0, 1].drop ((2 : Int) + 5).toNat ∧
    ((⟨2, none, [1, 0], false⟩ : Chromasome).crossoverSinglePoint
        ⟨2, none, [0, 1], false⟩ 5).fitness_val = none) :=
  ⟨crossoverSinglePoint_pivot_outside ⟨2, none, [1, 0], false⟩ ⟨2, none, [0, 1], false⟩
      2 (-1) rfl rfl (Or.inl (by decide)),
   crossoverSinglePoint_pivot_outside ⟨2, none, [1, 0], false⟩ ⟨2, none, [0, 1], false⟩
      2 5 rfl rfl (Or.inr (by decide))⟩

/-- C6 counterexample: `mutate` tests `random.random() <= rate`, and
`random.random()` can return exactly `0.0` (a legal value in `[0, 1)`). With
rate `0` and a draw of `0`, the bit at that position flips, so rate `0` does
not leave the genome unchanged for every RNG outcome. -/
theorem mutate_rate_zero_counterexample :
    (0 : Rat) ≤ 0 ∧ (0 : Rat) < 1 ∧
    ((⟨1, none, [0], false⟩ : Chromasome).mutate 0 (fun _ => 0)).bit_string = [1] := by
  refine ⟨le_refl 0, by norm_num, ?_⟩
  rfl

/-- C6 amended: for every RNG outcome (all draws of `random.random()` are
`< 1`), `mutate` with rate `1` flips every bit; `mutate` with rate `0` leaves
the genome unchanged exactly on those outcomes in which no draw is `0.0` — a
draw of exactly `0.0` is a legal value of `random.random()` and flips its bit,
as the counterexample shows. -/
theorem mutate_extreme_rates (c : Chromasome) (draws : Nat → Rat)
    (h1 : ∀ i, draws i < 1) :
    ((∀ i, 0 < draws i) → (c.mutate 0 draws).bit_string = c.bit_string) ∧
    (c.mutate 1 draws).bit_string = c.bit_string.map pyNot :=
  ⟨fun h0 => by simp [mutate, mutateBits_rate_zero draws h0],
   by simp [mutate, mutateBits_rate_one draws h1]⟩

theorem mutate_extreme_rates_witness :
    ((⟨2, none, [0, 1], false⟩ : Chromasome).mutate 0 (fun _ => 1 / 2)).bit_string =
      [0, 1] ∧
    ((⟨2, none, [0, 1], false⟩ : Chromasome).mutate 1 (fun _ => 1 / 2)).bit_string =
      [1, 0] :=
  ⟨(mutate_extreme_rates ⟨2, none, [0, 1], false⟩ (fun _ => 1 / 2)
      (fun _ => by norm_num)).1 (fun _ => by norm_num),
   (mutate_extreme_rates ⟨2, none, [0, 1], false⟩ (fun _ => 1 / 2)
      (fun _ => by norm_num)).2⟩

/-- C7: `fitness()` returns the cached value without invoking the scoring
function when a cache is present; two consecutive calls return the identical
value and invoke the scoring function at most once in total. -/
theorem fitness_memoized (c : Chromasome) (fnc : List Nat → Rat) :
    (c.fitness fnc).1 = ((c.fitness fnc).2.1.fitness fnc).1 ∧
    (c.fitness fnc).2.2 + ((c.fitness fnc).2.1.fitness fnc).2.2 ≤ 1 ∧
    (∀ w, c.fitness_val = some w → (c.fitness fnc).1 = w ∧ (c.fitness fnc).2.2 = 0) := by
  cases h : c.fitness_val with
  | some v =>
    refine ⟨?_, ?_, ?_⟩ <;> simp [fitness, h]
  | none =>
    refine ⟨?_, ?_, ?_⟩ <;> simp [fitness, h]

theorem fitness_memoized_witness :
    ((⟨1, some 5, [0], false⟩ : Chromasome).fitness (fun _ => 0)).1 =
      (((⟨1, some 5, [0], false⟩ : Chromasome).fitness (fun _ => 0)).2.1.fitness
        (fun _ => 0)).1 ∧
    ((⟨1, some 5, [0], false⟩ : Chromasome).fitness (fun _ => 0)).2.2 +
      (((⟨1, some 5, [0], false⟩ : Chromasome).fitness (fun _ => 0)).2.1.fitness
        (fun _ => 0)).2.2 ≤ 1 ∧
    (∀ w, (⟨1, some 5, [0], false⟩ : Chromasome).fitness_val = some w →
      ((⟨1, some 5, [0], false⟩ : Chromasome).fitness (fun _ => 0)).1 = w ∧
      ((⟨1, some 5, [0], false⟩ : Chromasome).fitness (fun _ => 0)).2.2 = 0) :=
  fitness_memoized ⟨1, some 5, [0], false⟩ (fun _ => 0)

/-- C8: each of `randomise`, `mutate` (any rate), `crossoverUniform`, and
`crossoverSinglePoint` with an in-range pivot yields a genome of length
exactly `n_bits`, so the population invariant `len(genome) == n_bits` is
preserved by all genetic operators. -/
theorem genome_length_invariant (c d : Chromasome) (n : Nat)
    (hc : c.n_bits = n) (hcl : c.bit_string.length = n) (hdl : d.bit_string.length = n)
    (rdraws : Nat → Fin 2) (rate : Rat) (mdraws : Nat → Rat) (udraws : Nat → Bool)
    (k : Nat) (hk : k ≤ n) :
    (c.randomise rdraws).bit_string.length = n ∧
    (c.mutate rate mdraws).bit_string.length = n ∧
    (c.crossoverUniform d udraws).bit_string.length = n ∧
    (c.crossoverSinglePoint d (k : Int)).bit_string.length = n := by
  refine ⟨?_, ?_, ?_, ?_⟩
  · simp [randomise, hc]
  · simp [mutate, mutateBits_length, hcl]
  · simp [crossoverUniform, foldl_set_length, hc]
  · simp [crossoverSinglePoint, hcl, hdl, pySliceIdx_coe n k hk]
    omega

theorem genome_length_invariant_witness :
    ((⟨2, none, [1, 0], false⟩ : Chromasome).randomise
        (fun _ => ⟨1, by omega⟩)).bit_string.length = 2 ∧
    ((⟨2, none, [1, 0], false⟩ : Chromasome).mutate (1 / 2)
        (fun _ => 1 / 4)).bit_string.length = 2 ∧
    ((⟨2, none, [1, 0], false⟩ : Chromasome).crossoverUniform
        ⟨2, none, [0, 1], false⟩ (fun _ => true)).bit_string.length = 2 ∧
    ((⟨2, none, [1, 0], false⟩ : Chromasome).crossoverSinglePoint
        ⟨2, none, [0, 1], false⟩ ((1 : Nat) : Int)).bit_string.length = 2 :=
  genome_length_invariant ⟨2, none, [1, 0], false⟩ ⟨2, none, [0, 1], false⟩ 2
    rfl rfl rfl (fun _ => ⟨1, by omega⟩) (1 / 2) (fun _ => 1 / 4) (fun _ => true)
    1 (by decide)

end Chromasome

namespace GeneticAlgorithm

open Chromasome

/-! ### Helper lemmas on sorting and the selection loops -/

theorem insertDesc_perm (key : Chromasome → Rat) (x : Chromasome) :
    ∀ l : List Chromasome, (insertDesc key x l).Perm (x :: l)
  | [] => List.Perm.refl _
  | y :: ys => by
    simp only [insertDesc]
    split
    · exact ((insertDesc_perm key x ys).cons y).trans (List.Perm.swap x y ys)
    · exact List.Perm.refl _

theorem sortDesc_perm (key : Chromasome → Rat) :
    ∀ l : List Chromasome, (sortDesc key l).Perm l
  | [] => List.Perm.refl _
  | x :: xs => (insertDesc_perm key x _).trans ((sortDesc_perm key xs).cons x)

theorem insertDesc_pairwise (key : Chromasome → Rat) (x : Chromasome) :
    ∀ l : List Chromasome, List.Pairwise (fun a b => key b ≤ key a) l →
      List.Pairwise (fun a b => key b ≤ key a) (insertDesc key x l)
  | [], _ => List.pairwise_singleton _ _
  | y :: ys, h => by
    obtain ⟨hy, hys⟩ := List.pairwise_cons.mp h
    simp only [insertDesc]
    split
    · refine List.pairwise_cons.mpr ⟨?_, insertDesc_pairwise key x ys hys⟩
      intro z hz
      rcases List.mem_cons.mp ((insertDesc_perm key x ys).mem_iff.mp hz) with rfl | hzys
      · exact le_of_lt (by assumption)
      · exact hy z hzys
    · refine List.pairwise_cons.mpr ⟨?_, h⟩
      intro z hz
      rcases List.mem_cons.mp hz with rfl | hzys
      · exact le_of_not_lt (by assumption)
      · exact le_trans (hy z hzys) (le_of_not_lt (by assumption))

theorem sortDesc_pairwise (key : Chromasome → Rat) :
    ∀ l : List Chromasome, List.Pairwise (fun a b => key b ≤ key a) (sortDesc key l)
  | [] => List.Pairwise.nil
  | x :: xs => insertDesc_pairwise key x _ (sortDesc_pairwise key xs)

theorem fitness_preserves_bit_string (c : Chromasome) (fnc : List Nat → Rat) :
    (c.fitness fnc).2.1.bit_string = c.bit_string := by
  cases h : c.fitness_val <;> simp [Chromasome.fitness, h]

theorem scorePop_map_bit_string (fnc : List Nat → Rat) (pop : List Chromasome) :
    (scorePop fnc pop).map Chromasome.bit_string = pop.map Chromasome.bit_string := by
  simp only [scorePop, List.map_map]
  exact List.map_congr_left fun c _ => fitness_preserves_bit_string c fnc

theorem scorePop_cached (fnc : List Nat → Rat) (pop : List Chromasome)
    (h : ∀ c ∈ pop, c.fitness_val.isSome) : scorePop fnc pop = pop := by
  induction pop with
  | nil => rfl
  | cons c cs ih =>
    obtain ⟨v, hv⟩ := Option.isSome_iff_exists.mp (h c (List.mem_cons_self c cs))
    have tail := ih fun d hd => h d (List.mem_cons_of_mem c hd)
    simp only [scorePop, List.map_cons] at tail ⊢
    rw [tail]
    simp [Chromasome.fitness, hv]

/-- The per-call invariant of the roulette rejection loop: a pair is appended
only when its components are distinct and the ordered pair is new, so distinct
components and ordered-pair freshness are preserved into the returned list. -/
theorem rouletteLoop_good (pop : List Chromasome) (fnc : List Nat → Rat) (total : Rat)
    (stream : Nat → Rat) (n_pairs : Nat) :
    ∀ (fuel k : Nat) (pairs L : List (Option Nat × Option Nat)),
      (∀ p ∈ pairs, p.1 ≠ p.2) → pairs.Nodup →
      rouletteLoop pop fnc total stream n_pairs fuel k pairs = some L →
      (∀ p ∈ L, p.1 ≠ p.2) ∧ L.Nodup := by
  intro fuel
  induction fuel with
  | zero =>
    intro k pairs L hd hn h
    rw [rouletteLoop] at h
    split at h
    · obtain rfl : pairs = L := Option.some_injective _ h
      exact ⟨hd, hn⟩
    · exact absurd h (by simp)
  | succ fuel ih =>
    intro k pairs L hd hn h
    rw [rouletteLoop] at h
    split at h
    · obtain rfl : pairs = L := Option.some_injective _ h
      exact ⟨hd, hn⟩
    · simp only at h
      split at h
      · rename_i hacc
        refine ih (k + 2) _ L ?_ ?_ h
        · intro p hp
          rcases List.mem_append.mp hp with hp | hp
          · exact hd p hp
          · obtain rfl : p = _ := List.mem_singleton.mp hp
            exact hacc.1
        · refine List.Nodup.append hn (List.nodup_singleton _) ?_
          intro q hq hq'
          obtain rfl : q = _ := List.mem_singleton.mp hq'
          exact hacc.2 hq
      · exact ih (k + 2) _ L hd hn h

/-- On a population whose every individual has cached fitness `0`, the roulette
loop never accepts a pair and never returns: every draw is
`r = u * 0 = 0`, the cumulative walk selects index `0` for both parents, and
the pair `(0, 0)` is always rejected. -/
theorem rouletteLoop_zero_total (c : Chromasome) (rest : List Chromasome)
    (fnc : List Nat → Rat) (stream : Nat → Rat) (n_pairs : Nat)
    (hc : fitnessOf fnc c = 0) (hn : 1 ≤ n_pairs) :
    ∀ fuel k, rouletteLoop (c :: rest) fnc 0 stream n_pairs fuel k [] = none := by
  intro fuel
  induction fuel with
  | zero =>
    intro k
    rw [rouletteLoop]
    rw [if_neg (by simp; omega)]
  | succ fuel ih =>
    intro k
    rw [rouletteLoop]
    rw [if_neg (by simp; omega)]
    have hwalk : ∀ j, rouletteWalk fnc (stream j * 0) (c :: rest) 0 0 = some 0 := by
      intro j
      rw [mul_zero, rouletteWalk]
      simp [hc]
    simp only [hwalk, mul_zero]
    rw [if_neg (by simp)]
    exact ih (k + 2)

/-! ### Claim theorems on `GeneticAlgorithm` -/

/-- C1: on a population whose every fitness is cached as `0` (total fitness not
strictly positive), `getRoulettePairs` does not raise: every uniform draw is
`r = u * 0 = 0`, the cumulative walk picks the first individual for both
parents, the pair is rejected for being the same object, and the loop redraws
forever — for every fuel bound and every RNG stream the call has neither
returned pairs nor raised (`none`), contrary to the spec's fatal
precondition-violation contract. -/
theorem getRoulettePairs_zero_fitness_never_raises (ga : GeneticAlgorithm)
    (fnc : List Nat → Rat) (n_pairs : Nat) (hn : 1 ≤ n_pairs)
    (hz : ∀ c ∈ ga.population, c.fitness_val = some 0) (hne : ga.population ≠ []) :
    ∀ (fuel : Nat) (stream : Nat → Rat),
      ga.getRoulettePairs fnc n_pairs stream fuel = none := by
  intro fuel stream
  have hcached : ∀ c ∈ ga.population, c.fitness_val.isSome := fun c hc => by
    rw [hz c hc]; rfl
  simp only [getRoulettePairs, scorePop_cached fnc ga.population hcached]
  have hperm := sortDesc_perm (fitnessOf fnc) ga.population
  have hz' : ∀ c ∈ sortDesc (fitnessOf fnc) ga.population, fitnessOf fnc c = 0 := by
    intro c hc
    simp [fitnessOf, hz c (hperm.mem_iff.mp hc)]
  have hsum : ((sortDesc (fitnessOf fnc) ga.population).map (fitnessOf fnc)).sum = 0 := by
    refine List.sum_eq_zero ?_
    intro x hx
    obtain ⟨c, hc, rfl⟩ := List.mem_map.mp hx
    exact hz' c hc
  rw [hsum]
  obtain ⟨c, rest, hcr⟩ :
      ∃ c rest, sortDesc (fitnessOf fnc) ga.population = c :: rest := by
    cases hsd : sortDesc (fitnessOf fnc) ga.population with
    | nil =>
      rw [hsd] at hperm
      exact absurd (hperm.symm.eq_nil) hne
    | cons c rest => exact ⟨c, rest, rfl⟩
  rw [hcr]
  rw [rouletteLoop_zero_total c rest fnc stream n_pairs
    (hz' c (by rw [hcr]; exact List.mem_cons_self c rest)) hn fuel 0]

theorem getRoulettePairs_zero_fitness_never_raises_witness :
    (⟨2, 1, [⟨1, some 0, [0], false⟩, ⟨1, some 0, [1], false⟩]⟩ :
        GeneticAlgorithm).getRoulettePairs (fun _ => 0) 1 (fun _ => 0) 5 = none :=
  getRoulettePairs_zero_fitness_never_raises
    ⟨2, 1, [⟨1, some 0, [0], false⟩, ⟨1, some 0, [1], false⟩]⟩
    (fun _ => 0) 1 (le_refl 1) (by decide) (by decide) 5 (fun _ => 0)

/-- C2 counterexample: the freshness test is `(left_parent, right_parent) not in
parent_pairs` on the ORDERED tuple, so one call can return the same unordered
pair of two distinct individuals twice, once per orientation. With cached
fitness `1` and `2` (total `3`) and draws `1/3, 5/6, 5/6, 1/3`, the call
returns `[(0, 1), (1, 0)]` (indices into the sorted population). -/
theorem getRoulettePairs_unordered_dup_counterexample :
    (⟨2, 1, [⟨1, some 1, [0], false⟩, ⟨1, some 2, [1], false⟩]⟩ :
        GeneticAlgorithm).getRoulettePairs
        (fun _ => 0) 2 (fun k => [(1 : Rat) / 3, 5 / 6, 5 / 6, 1 / 3].getD k 0) 2 =
      some ([(some 0, some 1), (some 1, some 0)],
        ⟨2, 1, [⟨1, some 2, [1], false⟩, ⟨1, some 1, [0], false⟩]⟩) ∧
    (some 0 : Option Nat) ≠ some 1 := by
  constructor
  · norm_num [getRoulettePairs, scorePop, Chromasome.fitness, sortDesc, insertDesc,
      fitnessOf, rouletteLoop, rouletteWalk, List.getD]
  · decide

/-- C2 amended: every pair returned by `getRoulettePairs` has two distinct
components (never the same individual twice), and no ORDERED pair occurs twice
in the returned list; the same unordered pair may, however, occur in both
orientations. -/
theorem getRoulettePairs_pairs_distinct (ga : GeneticAlgorithm) (fnc : List Nat → Rat)
    (n_pairs : Nat) (stream : Nat → Rat) (fuel : Nat)
    (prs : List (Option Nat × Option Nat)) (ga' : GeneticAlgorithm)
    (h : ga.getRoulettePairs fnc n_pairs stream fuel = some (prs, ga')) :
    (∀ p ∈ prs, p.1 ≠ p.2) ∧ prs.Nodup := by
  simp only [getRoulettePairs] at h
  split at h
  · exact absurd h (by simp)
  · rename_i pairs heq
    simp only [Option.some.injEq, Prod.mk.injEq] at h
    obtain ⟨rfl, -⟩ := h
    exact rouletteLoop_good _ fnc _ stream n_pairs fuel 0 [] _
      (by intro p hp; cases hp) List.nodup_nil heq

theorem getRoulettePairs_pairs_distinct_witness :
    (∀ p ∈ [((some 0 : Option Nat), (some 1 : Option Nat)), (some 1, some 0)],
      p.1 ≠ p.2) ∧
    [((some 0 : Option Nat), (some 1 : Option Nat)), (some 1, some 0)].Nodup :=
  getRoulettePairs_pairs_distinct
    ⟨2, 1, [⟨1, some 1, [0], false⟩, ⟨1, some 2, [1], false⟩]⟩ (fun _ => 0) 2
    (fun k => [(1 : Rat) / 3, 5 / 6, 5 / 6, 1 / 3].getD k 0) 2
    [(some 0, some 1), (some 1, some 0)]
    ⟨2, 1, [⟨1, some 2, [1], false⟩, ⟨1, some 1, [0], false⟩]⟩
    (by norm_num [GeneticAlgorithm.getRoulettePairs, scorePop, Chromasome.fitness,
      sortDesc, insertDesc, fitnessOf, rouletteLoop, rouletteWalk, List.getD])

/-- C4 counterexample: with `population_size = 5`, Python 2 floor division makes
the expected pair count `5 / 2 = 2`, and the call accepts 2 pairs but returns
only `4` offspring, not `population_size = 5` — the size is not preserved for
an odd population size. -/
theorem singlePointCrossover_odd_pop_counterexample :
    (2 = 5 / 2) ∧
    Option.map List.length
        ((⟨5, 4, List.replicate 5 (Chromasome.init 4)⟩ :
            GeneticAlgorithm).singlePointCrossover
          (List.replicate 2 (Chromasome.init 4, Chromasome.init 4)) none) = some 4 ∧
    (4 : Nat) ≠ 5 := by
  refine ⟨rfl, ?_, by decide⟩
  decide

/-- C4 amended: `singlePointCrossover` accepts exactly `population_size / 2`
(floor) parent pairs and then returns `2 * (population_size / 2)` offspring
(two per pair) — equal to `population_size` exactly when the population size is
even; any other pair count is a `ValueError`. -/
theorem singlePointCrossover_pair_count (ga : GeneticAlgorithm)
    (pairs : List (Chromasome × Chromasome)) (pivot : Option Int) :
    (pairs.length = ga.population_size / 2 →
      Option.map List.length (ga.singlePointCrossover pairs pivot) =
        some (2 * (ga.population_size / 2))) ∧
    (pairs.length ≠ ga.population_size / 2 →
      ga.singlePointCrossover pairs pivot = none) := by
  constructor
  · intro h
    have hc : ¬ pairs.length ≠ ga.population_size / 2 := by omega
    simp only [singlePointCrossover, if_neg hc]
    simp only [Option.map_some', Option.some.injEq, List.length_append, List.length_map]
    omega
  · intro h
    simp [singlePointCrossover, h]

theorem singlePointCrossover_pair_count_witness :
    (Option.map List.length
        ((⟨4, 4, List.replicate 4 (Chromasome.init 4)⟩ :
            GeneticAlgorithm).singlePointCrossover
          (List.replicate 2 (Chromasome.init 4, Chromasome.init 4)) none) =
      some (2 * (4 / 2))) ∧
    ((⟨4, 4, List.replicate 4 (Chromasome.init 4)⟩ :
        GeneticAlgorithm).singlePointCrossover
      (List.replicate 1 (Chromasome.init 4, Chromasome.init 4)) none = none) :=
  ⟨(singlePointCrossover_pair_count ⟨4, 4, List.replicate 4 (Chromasome.init 4)⟩
      (List.replicate 2 (Chromasome.init 4, Chromasome.init 4)) none).1 (by decide),
   (singlePointCrossover_pair_count ⟨4, 4, List.replicate 4 (Chromasome.init 4)⟩
      (List.replicate 1 (Chromasome.init 4, Chromasome.init 4)) none).2 (by decide)⟩

/-- C9 counterexample: `getBestPairs` reassigns `self.population` to the
descending-fitness sort, so after a successful call the engine's population is
no longer in its original order (here `[fit 1, fit 2]` becomes
`[fit 2, fit 1]`). -/
theorem getBestPairs_reorders_population_counterexample :
    Option.map (fun r => r.2.population)
        ((⟨2, 1, [⟨1, some 1, [0], false⟩, ⟨1, some 2, [1], false⟩]⟩ :
            GeneticAlgorithm).getBestPairs
          (fun _ => 0) 2 2 (fun k => [0, 1, 1, 0].getD k 0) 2) =
      some [⟨1, some 2, [1], false⟩, ⟨1, some 1, [0], false⟩] ∧
    [(⟨1, some 2, [1], false⟩ : Chromasome), ⟨1, some 1, [0], false⟩] ≠
      [⟨1, some 1, [0], false⟩, ⟨1, some 2, [1], false⟩] := by
  constructor
  · decide
  · decide

/-- C9 amended: neither selection strategy is pure in the engine's population.
Whenever `getRoulettePairs` returns, and likewise whenever `getBestPairs`
returns, the call has reassigned `self.population` to the stable
descending-fitness sort (caching every fitness on the way): afterwards the
population holds the same individuals' genomes as a permutation of the
originals, in descending fitness order, with the remaining engine fields
unchanged; the pair list is the returned output. -/
theorem selection_sorts_population (ga : GeneticAlgorithm) (fnc : List Nat → Rat)
    (np1 np2 ne : Nat) (rs : Nat → Rat) (cs : Nat → Nat) (f1 f2 : Nat)
    (prs1 : List (Option Nat × Option Nat)) (prs2 : List (Nat × Nat))
    (ga1 ga2 : GeneticAlgorithm) :
    (ga.getRoulettePairs fnc np1 rs f1 = some (prs1, ga1) →
      (ga1.population.map Chromasome.bit_string).Perm
        (ga.population.map Chromasome.bit_string) ∧
      List.Pairwise (fun a b => fitnessOf fnc b ≤ fitnessOf fnc a) ga1.population ∧
      ga1.population_size = ga.population_size ∧
      ga1.bit_string_len = ga.bit_string_len) ∧
    (ga.getBestPairs fnc np2 ne cs f2 = some (prs2, ga2) →
      (ga2.population.map Chromasome.bit_string).Perm
        (ga.population.map Chromasome.bit_string) ∧
      List.Pairwise (fun a b => fitnessOf fnc b ≤ fitnessOf fnc a) ga2.population ∧
      ga2.population_size = ga.population_size ∧
      ga2.bit_string_len = ga.bit_string_len) := by
  have hperm : ((sortDesc (fitnessOf fnc) (scorePop fnc ga.population)).map
      Chromasome.bit_string).Perm (ga.population.map Chromasome.bit_string) := by
    have hp := (sortDesc_perm (fitnessOf fnc) (scorePop fnc ga.population)).map
      Chromasome.bit_string
    rw [scorePop_map_bit_string] at hp
    exact hp
  have hsorted := sortDesc_pairwise (fitnessOf fnc) (scorePop fnc ga.population)
  constructor
  · intro h1
    have e1 : ga1 =
        { ga with population := sortDesc (fitnessOf fnc) (scorePop fnc ga.population) } := by
      simp only [getRoulettePairs] at h1
      split at h1
      · exact absurd h1 (by simp)
      · simp only [Option.some.injEq, Prod.mk.injEq] at h1
        exact h1.2.symm
    subst e1
    exact ⟨hperm, hsorted, rfl, rfl⟩
  · intro h2
    have e2 : ga2 =
        { ga with population := sortDesc (fitnessOf fnc) (scorePop fnc ga.population) } := by
      simp only [getBestPairs] at h2
      split at h2
      · exact absurd h2 (by simp)
      · simp only [Option.some.injEq, Prod.mk.injEq] at h2
        exact h2.2.symm
    subst e2
    exact ⟨hperm, hsorted, rfl, rfl⟩

theorem selection_sorts_population_witness :
    ((([(⟨1, some 2, [1], false⟩ : Chromasome), ⟨1, some 1, [0], false⟩]).map
        Chromasome.bit_string).Perm
      (([(⟨1, some 1, [0], false⟩ : Chromasome), ⟨1, some 2, [1], false⟩]).map
        Chromasome.bit_string) ∧
    List.Pairwise (fun a b => fitnessOf (fun _ => 0) b ≤ fitnessOf (fun _ => 0) a)
      [(⟨1, some 2, [1], false⟩ : Chromasome), ⟨1, some 1, [0], false⟩] ∧
    (2 : Nat) = 2 ∧ (1 : Nat) = 1) ∧
    ((([(⟨1, some 4, [1], false⟩ : Chromasome), ⟨1, some 3, [0], false⟩]).map
        Chromasome.bit_string).Perm
      (([(⟨1, some 3, [0], false⟩ : Chromasome), ⟨1, some 4, [1], false⟩]).map
        Chromasome.bit_string) ∧
    List.Pairwise (fun a b => fitnessOf (fun _ => 0) b ≤ fitnessOf (fun _ => 0) a)
      [(⟨1, some 4, [1], false⟩ : Chromasome), ⟨1, some 3, [0], false⟩] ∧
    (2 : Nat) = 2 ∧ (1 : Nat) = 1) :=
  ⟨(selection_sorts_population
      ⟨2, 1, [⟨1, some 1, [0], false⟩, ⟨1, some 2, [1], false⟩]⟩ (fun _ => 0)
      2 2 2 (fun k => [(1 : Rat) / 3, 5 / 6, 5 / 6, 1 / 3].getD k 0)
      (fun k => [0, 1, 1, 0].getD k 0) 2 2
      [(some 0, some 1), (some 1, some 0)] [(0, 1), (1, 0)]
      ⟨2, 1, [⟨1, some 2, [1], false⟩, ⟨1, some 1, [0], false⟩]⟩
      ⟨2, 1, [⟨1, some 2, [1], false⟩, ⟨1, some 1, [0], false⟩]⟩).1
    (by norm_num [GeneticAlgorithm.getRoulettePairs, scorePop, Chromasome.fitness,
      sortDesc, insertDesc, fitnessOf, rouletteLoop, rouletteWalk, List.getD]),
   (selection_sorts_population
      ⟨2, 1, [⟨1, some 3, [0], false⟩, ⟨1, some 4, [1], false⟩]⟩ (fun _ => 0)
      2 2 2 (fun k => [(1 : Rat) / 3, 5 / 6, 5 / 6, 1 / 3].getD k 0)
      (fun k => [0, 1, 1, 0].getD k 0) 2 2
      [(some 0, some 1), (some 1, some 0)] [(0, 1), (1, 0)]
      ⟨2, 1, [⟨1, some 4, [1], false⟩, ⟨1, some 3, [0], false⟩]⟩
      ⟨2, 1, [⟨1, some 4, [1], false⟩, ⟨1, some 3, [0], false⟩]⟩).2
    (by norm_num [GeneticAlgorithm.getBestPairs, scorePop, Chromasome.fitness,
      sortDesc, insertDesc, fitnessOf, bestLoop, List.getD])⟩

end GeneticAlgorithm

end EasyGA
